import Mathlib

/-!
Verification of the wheel-bot core (src/wheel_bot.py): data model, color
resolver, persistence round-trip, section CRUD invariants, weighted spin
selection and renderer slice-angle computation.

Modelling conventions:
* Python floats are modelled as rationals (`ℚ`); all percentage arithmetic in
  the source is plain addition/subtraction/comparison, faithfully mirrored.
* Python strings are Lean `String`s (a list of characters); `str.lower`,
  `str.upper` and `str.strip` are modelled character-wise on the ASCII range
  the program manipulates.
* The random sources (`random.uniform` for the spin draw, `random.randint`
  for the color fallback) are modelled as explicit parameters.
* The sqlite table `wheels (guild_id PRIMARY KEY, sections)` is modelled as a
  function `ℕ → Option (List SectionDict)`; the JSON (de)serialisation of the
  dictionaries produced by `WheelSection.to_dict` is the identity on the
  record fields, so the store holds `SectionDict` values directly.
-/

/-- ASCII whitespace characters stripped by `str.strip` and ignored by
`int(s, 16)`. (Python additionally strips some non-ASCII unicode whitespace,
which never occurs in the inputs considered here.) -/
def isPyWhitespace (c : Char) : Bool :=
  c = ' ' || c = '\t' || c = '\n' || c = '\r' || c = '\x0b' || c = '\x0c'

/-- Hexadecimal digit characters accepted by `int(s, 16)`. -/
def isHexDigitChar (c : Char) : Bool :=
  ('0' ≤ c && c ≤ '9') || ('a' ≤ c && c ≤ 'f') || ('A' ≤ c && c ≤ 'F')

/-- Model of Python `str.lower` (ASCII range). -/
def pyLower (s : String) : String := ⟨s.data.map Char.toLower⟩

/-- Model of Python `str.upper` (ASCII range). -/
def pyUpper (s : String) : String := ⟨s.data.map Char.toUpper⟩

/-- Model of Python `str.strip`: drop whitespace from both ends. -/
def stripWs (l : List Char) : List Char :=
  ((l.dropWhile isPyWhitespace).reverse.dropWhile isPyWhitespace).reverse

/-- `str.strip` on strings. -/
def pyStrip (s : String) : String := ⟨stripWs s.data⟩

/-- Run of hexadecimal digits possibly containing single underscores between
digits, as accepted by `int(s, 16)` after the first digit. -/
def hexRun : List Char → Bool
  | [] => true
  | c :: rest =>
    if c = '_' then
      match rest with
      | [] => false
      | d :: rest' => isHexDigitChar d && hexRun rest'
    else isHexDigitChar c && hexRun rest

/-- Digit part of an `int(s, 16)` literal: at least one digit, starting with a
digit, single underscores allowed between digits. -/
def hexBody (l : List Char) : Bool :=
  match l with
  | [] => false
  | c :: rest => isHexDigitChar c && hexRun rest

/-- After a `0x`/`0X` base marker `int(s, 16)` additionally allows one
underscore before the first digit. -/
def hexAfterBase (l : List Char) : Bool :=
  if l.head? = some '_' then hexBody l.tail else hexBody l

/-- `int(s, 16)` body after the optional sign: optional `0x`/`0X` base marker,
then digits. -/
def afterSign (l : List Char) : Bool :=
  if l.take 2 = ['0', 'x'] ∨ l.take 2 = ['0', 'X'] then hexAfterBase (l.drop 2)
  else hexBody l

/-- `int(s, 16)` after stripping outer whitespace: optional single sign, then
the body. -/
def afterStrip (l : List Char) : Bool :=
  if l.head? = some '+' ∨ l.head? = some '-' then afterSign l.tail
  else afterSign l

/-- Whether Python's `int(s, 16)` succeeds on `s` (i.e. raises no
`ValueError`).  This is the lenient CPython grammar: outer whitespace, an
optional sign, an optional `0x` base marker, and underscore digit
separators are all accepted. -/
def pyIntHexOk (l : List Char) : Bool := afterStrip (stripWs l)

/-- Upper-case hexadecimal digit for `n < 16`, as produced by `"%06X"`. -/
def hexDigitUpper (n : ℕ) : Char :=
  if n < 10 then Char.ofNat (48 + n) else Char.ofNat (55 + n)

/-- `f"{n:06X}"` for `n ≤ 0xFFFFFF`: exactly six upper-case hex digits. -/
def hex6 (n : ℕ) : String :=
  ⟨[hexDigitUpper (n / 1048576 % 16), hexDigitUpper (n / 65536 % 16),
    hexDigitUpper (n / 4096 % 16), hexDigitUpper (n / 256 % 16),
    hexDigitUpper (n / 16 % 16), hexDigitUpper (n % 16)]⟩

/-- The predefined named-color table of `WheelSection._parse_color`. -/
def color_map : List (String × String) :=
  [("red", "#FF0000"), ("blue", "#0000FF"), ("green", "#00FF00"),
   ("yellow", "#FFFF00"), ("orange", "#FFA500"), ("purple", "#800080"),
   ("pink", "#FFC0CB"), ("cyan", "#00FFFF"), ("magenta", "#FF00FF"),
   ("lime", "#00FF00"), ("navy", "#000080"), ("teal", "#008080"),
   ("olive", "#808000"), ("maroon", "#800000"), ("gray", "#808080"),
   ("silver", "#C0C0C0"), ("black", "#000000"), ("white", "#FFFFFF")]

/-- Dictionary lookup in the named-color table. -/
def colorMapLookup (s : String) : Option String := color_map.lookup s

/-- Model of `WheelSection._parse_color`.  `rand` models the process-wide
random source: the draw `random.randint(0, 0xFFFFFF)` used by the fallback
branch is modelled as `rand % 16777216`. -/
def parse_color (rand : ℕ) (color : String) : String :=
  match colorMapLookup (pyStrip (pyLower color)) with
  | some hex => hex
  | none =>
    if (pyStrip (pyLower color)).data.head? = some '#' ∧
        (pyStrip (pyLower color)).data.length = 7 ∧
        pyIntHexOk ((pyStrip (pyLower color)).data.drop 1) then
      pyUpper (pyStrip (pyLower color))
    else "#" ++ hex6 (rand % 16777216)

/-- A single wheel section (class `WheelSection`): name, percentage weight and
stored (already parsed) color. -/
structure WheelSection where
  name : String
  percentage : ℚ
  color : String
deriving DecidableEq, Repr

instance : Inhabited WheelSection := ⟨⟨"", 0, ""⟩⟩

/-- The `WheelSection` constructor: stores name and percentage as given and
parses the color input. -/
def mkWheelSection (rand : ℕ) (name : String) (percentage : ℚ) (color : String) :
    WheelSection :=
  ⟨name, percentage, parse_color rand color⟩

/-- The dictionary produced by `WheelSection.to_dict` (and round-tripped
through JSON by the store). -/
structure SectionDict where
  name : String
  percentage : ℚ
  color : String
deriving DecidableEq, Repr

/-- `WheelSection.to_dict`. -/
def WheelSection.to_dict (s : WheelSection) : SectionDict :=
  ⟨s.name, s.percentage, s.color⟩

/-- `WheelSection.from_dict`: reconstructs a section through the constructor,
hence re-runs color parsing on the stored color. -/
def WheelSection.from_dict (rand : ℕ) (d : SectionDict) : WheelSection :=
  mkWheelSection rand d.name d.percentage d.color

/-- `[WheelSection.from_dict(data) for data in sections_data]`, with an
indexed random source for the (normally unreached) color fallback. -/
def from_dict_list (rands : ℕ → ℕ) : ℕ → List SectionDict → List WheelSection
  | _, [] => []
  | i, d :: rest => WheelSection.from_dict (rands i) d :: from_dict_list rands (i + 1) rest

/-- `ChanceWheelBot.calculate_total_percentage`. -/
def calculate_total_percentage (l : List WheelSection) : ℚ :=
  (l.map WheelSection.percentage).sum

/-- `WheelDatabase.save_wheel`: `INSERT OR REPLACE` of the serialised section
list under the guild key. -/
def save_wheel (db : ℕ → Option (List SectionDict)) (g : ℕ)
    (l : List WheelSection) : ℕ → Option (List SectionDict) :=
  fun g' => if g' = g then some (l.map WheelSection.to_dict) else db g'

/-- `WheelDatabase.load_wheel`: deserialise the stored row, or `[]` if the
guild has no row. -/
def load_wheel (rands : ℕ → ℕ) (db : ℕ → Option (List SectionDict)) (g : ℕ) :
    List WheelSection :=
  match db g with
  | some ds => from_dict_list rands 0 ds
  | none => []

/-- In-memory bot state: the `ChanceWheelBot.wheels` cache plus the sqlite
store behind `WheelDatabase`. -/
structure BotState where
  cache : ℕ → Option (List WheelSection)
  db : ℕ → Option (List SectionDict)

/-- `ChanceWheelBot.get_wheel_sections`: serve from cache, loading through the
store on a miss (and caching the loaded list). -/
def get_wheel_sections (rands : ℕ → ℕ) (st : BotState) (g : ℕ) :
    List WheelSection × BotState :=
  match st.cache g with
  | some l => (l, st)
  | none =>
    let l := load_wheel rands st.db g
    (l, { st with cache := fun g' => if g' = g then some l else st.cache g' })

/-- `ChanceWheelBot.save_wheel_sections`: write through cache and store. -/
def save_wheel_sections (st : BotState) (g : ℕ) (l : List WheelSection) : BotState :=
  { cache := fun g' => if g' = g then some l else st.cache g',
    db := save_wheel st.db g l }

/-- The section list a guild observes (what every command reads first). -/
def sectionsOf (rands : ℕ → ℕ) (st : BotState) (g : ℕ) : List WheelSection :=
  (get_wheel_sections rands st g).1

/-- Error taxonomy of the engine (the early-return branches of the command
handlers). -/
inductive WheelError where
  | InvalidPercentage
  | DuplicateName
  | PercentageBudgetExceeded (total : ℚ)
  | SectionNotFound
  | EmptyWheel
  | IncompleteWheel (total : ℚ)
deriving DecidableEq, Repr

/-- Index of the first section matching `name` case-insensitively (the
find-loops of `remove_section` / `edit_section`). -/
def firstMatchIdx (name : String) : List WheelSection → Option ℕ
  | [] => none
  | s :: rest =>
    if pyLower s.name = pyLower name then some 0
    else (firstMatchIdx name rest).map (· + 1)

/-- Core of the `add_section` command on one guild's section list: validation
in source order, then append of the freshly constructed section. -/
def add_section (sections : List WheelSection) (name : String) (percentage : ℚ)
    (color : String) (rand : ℕ) : Except WheelError (List WheelSection) :=
  if percentage ≤ 0 ∨ 100 < percentage then .error .InvalidPercentage
  else if sections.any fun s => pyLower s.name == pyLower name then
    .error .DuplicateName
  else if 100 < calculate_total_percentage sections + percentage then
    .error (.PercentageBudgetExceeded (calculate_total_percentage sections))
  else .ok (sections ++ [mkWheelSection rand name percentage color])

/-- Core of the `remove_section` command: find the first case-insensitive
match and remove exactly that element (`list.remove` on the found object,
which compares by identity as `WheelSection` defines no `__eq__`). -/
def remove_section (sections : List WheelSection) (name : String) :
    Except WheelError (List WheelSection) :=
  match firstMatchIdx name sections with
  | none => .error .SectionNotFound
  | some i => .ok (sections.eraseIdx i)

/-- Core of the `edit_section` command: find the first match, validate the new
percentage, budget-check against the total excluding the edited section, then
update percentage and re-parsed color in place. -/
def edit_section (sections : List WheelSection) (name : String)
    (new_percentage : ℚ) (new_color : String) (rand : ℕ) :
    Except WheelError (List WheelSection) :=
  match firstMatchIdx name sections with
  | none => .error .SectionNotFound
  | some i =>
    if new_percentage ≤ 0 ∨ 100 < new_percentage then .error .InvalidPercentage
    else
      let current_total :=
        calculate_total_percentage sections - (sections.getD i default).percentage
      if 100 < current_total + new_percentage then
        .error (.PercentageBudgetExceeded current_total)
      else
        .ok (sections.set i
          { sections.getD i default with
              percentage := new_percentage
              color := parse_color rand new_color })

/-- `create_wheel`: clears the guild's wheel. -/
def create_wheel (_ : List WheelSection) : List WheelSection := []

/-- The cumulative-sum walk of `spin_wheel`: `current_sum` accumulates the
percentages in list order; the first section with `rand_num <= current_sum`
wins. -/
def selectWinner (r : ℚ) (acc : ℚ) : List WheelSection → Option String
  | [] => none
  | s :: rest =>
    if r ≤ acc + s.percentage then some s.name
    else selectWinner r (acc + s.percentage) rest

/-- Core of the `spin` command on one guild's section list, with the uniform
draw `r ∈ [0, total]` passed in.  Mirrors the source: empty-wheel check,
incomplete-wheel check, cumulative walk, then the falsy-winner fallback
`if not winner: winner = sections[0].name`. -/
def spin_wheel (sections : List WheelSection) (r : ℚ) : Except WheelError String :=
  if sections = [] then .error .EmptyWheel
  else if calculate_total_percentage sections < 100 then
    .error (.IncompleteWheel (calculate_total_percentage sections))
  else
    match selectWinner r 0 sections with
    | some w => if w = "" then .ok (sections.headD default).name else .ok w
    | none => .ok (sections.headD default).name

/-- The full `add_section` command at bot-state level: read the guild's
sections (caching on miss), run the core, persist only on success. -/
def add_section_cmd (rands : ℕ → ℕ) (rand : ℕ) (st : BotState) (g : ℕ)
    (name : String) (percentage : ℚ) (color : String) :
    Except WheelError (List WheelSection) × BotState :=
  match add_section (get_wheel_sections rands st g).1 name percentage color rand with
  | .error e => (.error e, (get_wheel_sections rands st g).2)
  | .ok l' => (.ok l', save_wheel_sections (get_wheel_sections rands st g).2 g l')

/-- The full `spin` command at bot-state level: reads sections, never
persists. -/
def spin_wheel_cmd (rands : ℕ → ℕ) (st : BotState) (g : ℕ) (r : ℚ) :
    Except WheelError String × BotState :=
  (spin_wheel (get_wheel_sections rands st g).1 r, (get_wheel_sections rands st g).2)

/-- `WheelRenderer.create_wheel_image` angle step for one section:
`(section.percentage / 100) * 360`. -/
def section_angle (s : WheelSection) : ℚ := s.percentage / 100 * 360

/-- The `(start_angle, end_angle)` pairs passed to `_draw_pie_slice`, in list
order, accumulating `current_angle` from the given start. -/
def slice_angles (start : ℚ) : List WheelSection → List (ℚ × ℚ)
  | [] => []
  | s :: rest =>
    (start, start + section_angle s) :: slice_angles (start + section_angle s) rest

deriving instance DecidableEq for Except

/-- Spec-side: index of the first section in list order whose cumulative
percentage sum is at least `r`. -/
def firstCoveringIdx (l : List WheelSection) (r : ℚ) : Option ℕ :=
  (List.range l.length).find? fun i =>
    decide (r ≤ calculate_total_percentage (l.take (i + 1)))

/-- Spec-side: the shape "`#` followed by exactly six hexadecimal digits". -/
def specSixHex (s : String) : Bool :=
  s.data.head? == some '#' && s.data.length == 7 && s.data.tail.all isHexDigitChar

/-- The sixteen upper-case hexadecimal digit characters. -/
def upperHexChars : List Char :=
  ['A', 'B', 'C', 'D', 'E', 'F', '0', '1', '2', '3', '4', '5', '6', '7', '8', '9']

/-- The sixteen lower-case hexadecimal digit characters. -/
def lowerHexChars : List Char :=
  ['a', 'b', 'c', 'd', 'e', 'f', '0', '1', '2', '3', '4', '5', '6', '7', '8', '9']

/-- Canonical stored color shape: `#` followed by six upper-case hex digits
(the shape every branch of `_parse_color` produces for table and fallback
colors, and the data-model invariant for stored colors). -/
def isCanonicalColor (s : String) : Bool :=
  s.data.head? == some '#' && s.data.length == 7 &&
    s.data.tail.all fun c => c ∈ upperHexChars

/-- Whether an engine result is a `PercentageBudgetExceeded` failure. -/
def isBudgetError (r : Except WheelError (List WheelSection)) : Bool :=
  match r with
  | .error (.PercentageBudgetExceeded _) => true
  | _ => false

lemma calc_total_nil : calculate_total_percentage [] = 0 := rfl

lemma calc_total_cons (s : WheelSection) (l : List WheelSection) :
    calculate_total_percentage (s :: l) = s.percentage + calculate_total_percentage l := by
  simp [calculate_total_percentage]

lemma calc_total_append (l₁ l₂ : List WheelSection) :
    calculate_total_percentage (l₁ ++ l₂) =
      calculate_total_percentage l₁ + calculate_total_percentage l₂ := by
  simp [calculate_total_percentage]

lemma firstMatchIdx_lt_length {name : String} :
    ∀ {l : List WheelSection} {i : ℕ}, firstMatchIdx name l = some i → i < l.length := by
  intro l
  induction l with
  | nil => intro i h; simp [firstMatchIdx] at h
  | cons s rest ih =>
    intro i h
    unfold firstMatchIdx at h
    split at h
    · injection h with h
      subst h
      simp
    · rcases Option.map_eq_some'.mp h with ⟨j, hj, rfl⟩
      have := ih hj
      simp only [List.length_cons]
      omega

lemma firstMatchIdx_spec {name : String} :
    ∀ {l : List WheelSection} {i : ℕ}, firstMatchIdx name l = some i →
      pyLower (l.getD i default).name = pyLower name ∧
      ∀ j < i, pyLower (l.getD j default).name ≠ pyLower name := by
  intro l
  induction l with
  | nil => intro i h; simp [firstMatchIdx] at h
  | cons s rest ih =>
    intro i h
    unfold firstMatchIdx at h
    split at h
    · rename_i hmatch
      injection h with h
      subst h
      exact ⟨by simpa using hmatch, by intro j hj; omega⟩
    · rename_i hmatch
      rcases Option.map_eq_some'.mp h with ⟨j, hj, rfl⟩
      obtain ⟨h1, h2⟩ := ih hj
      refine ⟨by simpa using h1, ?_⟩
      intro k hk
      cases k with
      | zero => simpa using hmatch
      | succ m =>
        have : m < j := by omega
        simpa using h2 m this

/-- C10: `remove_section`, given a list containing at least one
case-insensitive match for `name` (so that the first-match index `i` exists),
removes exactly the section at the first matching index and returns all other
sections unchanged and in their original relative order. -/
theorem remove_section_removes_first_match (l : List WheelSection) (name : String)
    (i : ℕ) (h : firstMatchIdx name l = some i) :
    pyLower (l.getD i default).name = pyLower name ∧
    (∀ j < i, pyLower (l.getD j default).name ≠ pyLower name) ∧
    remove_section l name = .ok (l.take i ++ l.drop (i + 1)) := by
  refine ⟨(firstMatchIdx_spec h).1, (firstMatchIdx_spec h).2, ?_⟩
  unfold remove_section
  rw [h]
  dsimp only
  rw [List.eraseIdx_eq_take_drop_succ]

/-- Witness for C10 at a concrete input: "y" matches "Y" (index 1) first. -/
theorem remove_section_removes_first_match_witness :
    firstMatchIdx "y" [⟨"x", 10, "c1"⟩, ⟨"Y", 20, "c2"⟩, ⟨"y", 30, "c3"⟩] = some 1 ∧
    remove_section [⟨"x", 10, "c1"⟩, ⟨"Y", 20, "c2"⟩, ⟨"y", 30, "c3"⟩] "y" =
      .ok [⟨"x", 10, "c1"⟩, ⟨"y", 30, "c3"⟩] := by
  refine ⟨by decide, ?_⟩
  have h := remove_section_removes_first_match
    [⟨"x", 10, "c1"⟩, ⟨"Y", 20, "c2"⟩, ⟨"y", 30, "c3"⟩] "y" 1 (by decide)
  simpa using h.2.2

/-- C3 (amended): for an existing section (first match index `i`) and an
in-range new percentage, `edit_section` fails with `PercentageBudgetExceeded`
(carrying the total of the remaining sections) exactly when the total
excluding the edited section plus the new percentage exceeds 100. -/
theorem edit_section_budget_excludes_self (l : List WheelSection) (name : String)
    (np : ℚ) (nc : String) (rand : ℕ) (i : ℕ)
    (hfind : firstMatchIdx name l = some i) (h1 : 0 < np) (h2 : np ≤ 100) :
    edit_section l name np nc rand =
        .error (.PercentageBudgetExceeded
          (calculate_total_percentage l - (l.getD i default).percentage)) ↔
      100 < calculate_total_percentage l - (l.getD i default).percentage + np := by
  unfold edit_section
  rw [hfind]
  dsimp only
  have hnot : ¬ (np ≤ 0 ∨ 100 < np) := by push_neg; exact ⟨h1, h2⟩
  rw [if_neg hnot]
  split
  · rename_i hgt
    exact iff_of_true rfl hgt
  · rename_i hle
    constructor
    · intro hcontra; cases hcontra
    · intro hcontra; exact absurd hcontra hle

/-- Counterexample to C3 as stated: with A=20, B=80 and the out-of-range new
percentage 101 the budget condition (total − 20) + 101 > 100 holds, yet
`edit_section` does not fail with `PercentageBudgetExceeded` — it fails with
`InvalidPercentage`, because the range check runs first. -/
theorem edit_section_budget_claim_counterexample :
    isBudgetError
      (edit_section [⟨"A", 20, "#FF0000"⟩, ⟨"B", 80, "#0000FF"⟩] "A" 101 "red" 0) = false ∧
    edit_section [⟨"A", 20, "#FF0000"⟩, ⟨"B", 80, "#0000FF"⟩] "A" 101 "red" 0 =
      .error .InvalidPercentage ∧
    100 < calculate_total_percentage [⟨"A", 20, "#FF0000"⟩, ⟨"B", 80, "#0000FF"⟩]
      - 20 + 101 := by
  refine ⟨by decide, by decide, by norm_num [calculate_total_percentage]⟩

/-- Witness for C3: with A=20, B=80, editing A to 30 fails with
`PercentageBudgetExceeded 80`, and editing A to 20 succeeds. -/
theorem edit_section_budget_excludes_self_witness :
    firstMatchIdx "A" [⟨"A", 20, "#FF0000"⟩, ⟨"B", 80, "#0000FF"⟩] = some 0 ∧
    (0 : ℚ) < 30 ∧ (30 : ℚ) ≤ 100 ∧
    edit_section [⟨"A", 20, "#FF0000"⟩, ⟨"B", 80, "#0000FF"⟩] "A" 30 "red" 0 =
      .error (.PercentageBudgetExceeded 80) ∧
    edit_section [⟨"A", 20, "#FF0000"⟩, ⟨"B", 80, "#0000FF"⟩] "A" 20 "red" 0 =
      .ok [⟨"A", 20, "#FF0000"⟩, ⟨"B", 80, "#0000FF"⟩] := by
  have hx : calculate_total_percentage [⟨"A", 20, "#FF0000"⟩, ⟨"B", 80, "#0000FF"⟩]
      - (([⟨"A", 20, "#FF0000"⟩, ⟨"B", 80, "#0000FF"⟩] : List WheelSection).getD
          0 default).percentage
      = 80 := by norm_num [calculate_total_percentage]
  refine ⟨by decide, by norm_num, by norm_num, ?_, ?_⟩
  · have h := edit_section_budget_excludes_self
      [⟨"A", 20, "#FF0000"⟩, ⟨"B", 80, "#0000FF"⟩] "A" 30 "red" 0 0
      (by decide) (by norm_num) (by norm_num)
    rw [hx] at h
    exact h.mpr (by norm_num)
  · unfold edit_section
    rw [show firstMatchIdx "A" [⟨"A", 20, "#FF0000"⟩, ⟨"B", 80, "#0000FF"⟩] = some 0
          from by decide]
    dsimp only
    rw [if_neg (by norm_num), if_neg (by rw [hx]; norm_num)]
    rw [show parse_color 0 "red" = "#FF0000" from by decide]
    rfl

lemma spin_wheel_isOk (l : List WheelSection) (r : ℚ) (hne : l ≠ [])
    (ht : ¬ calculate_total_percentage l < 100) :
    ∃ w, spin_wheel l r = .ok w := by
  unfold spin_wheel
  rw [if_neg hne, if_neg ht]
  rcases hsel : selectWinner r 0 l with _ | w
  · exact ⟨_, rfl⟩
  · dsimp only
    by_cases hw : w = ""
    · rw [if_pos hw]; exact ⟨_, rfl⟩
    · rw [if_neg hw]; exact ⟨_, rfl⟩

lemma get_wheel_sections_db (rands : ℕ → ℕ) (st : BotState) (g : ℕ) :
    (get_wheel_sections rands st g).2.db = st.db := by
  unfold get_wheel_sections
  cases st.cache g <;> rfl

lemma sectionsOf_after_get (rands : ℕ → ℕ) (st : BotState) (g : ℕ) :
    sectionsOf rands (get_wheel_sections rands st g).2 g = sectionsOf rands st g := by
  unfold sectionsOf
  cases hc : st.cache g with
  | some l => simp [get_wheel_sections, hc]
  | none => simp [get_wheel_sections, hc]

/-- C5: `spin` fails with `EmptyWheel` iff the section list is empty, fails
with `IncompleteWheel` carrying exactly the current total iff the list is
non-empty with total strictly below 100, and the spin command never changes
the guild's section list or the stored state. -/
theorem spin_wheel_failure_modes (l : List WheelSection) (r t : ℚ)
    (rands : ℕ → ℕ) (st : BotState) (g : ℕ) :
    (spin_wheel l r = .error .EmptyWheel ↔ l = []) ∧
    (spin_wheel l r = .error (.IncompleteWheel t) ↔
      l ≠ [] ∧ calculate_total_percentage l < 100 ∧
        t = calculate_total_percentage l) ∧
    sectionsOf rands (spin_wheel_cmd rands st g r).2 g = sectionsOf rands st g ∧
    (spin_wheel_cmd rands st g r).2.db = st.db := by
  refine ⟨?_, ?_, ?_, ?_⟩
  · by_cases he : l = []
    · simp [spin_wheel, he]
    · by_cases hi : calculate_total_percentage l < 100
      · rw [show spin_wheel l r = .error (.IncompleteWheel (calculate_total_percentage l))
              from by unfold spin_wheel; rw [if_neg he, if_pos hi]]
        simp [he]
      · obtain ⟨w, hw⟩ := spin_wheel_isOk l r he hi
        rw [hw]
        simp [he]
  · by_cases he : l = []
    · simp [spin_wheel, he]
    · by_cases hi : calculate_total_percentage l < 100
      · rw [show spin_wheel l r = .error (.IncompleteWheel (calculate_total_percentage l))
              from by unfold spin_wheel; rw [if_neg he, if_pos hi]]
        simp [he, hi, eq_comm]
      · obtain ⟨w, hw⟩ := spin_wheel_isOk l r he hi
        rw [hw]
        simp [hi]
  · exact sectionsOf_after_get rands st g
  · exact get_wheel_sections_db rands st g

lemma slice_angles_getD (l : List WheelSection) :
    ∀ (i : ℕ) (a : ℚ), i < l.length →
      (slice_angles a l).getD i (0, 0) =
        (a + ((l.take i).map section_angle).sum,
         a + ((l.take i).map section_angle).sum + section_angle (l.getD i default)) := by
  induction l with
  | nil => intro i a h; simp at h
  | cons s rest ih =>
    intro i a h
    cases i with
    | zero => simp [slice_angles]
    | succ j =>
      have hj : j < rest.length := by simpa using h
      have := ih j (a + section_angle s) hj
      simp only [slice_angles, List.getD_cons_succ, List.take_succ_cons,
        List.map_cons, List.sum_cons] at this ⊢
      rw [this]
      simp only [Prod.mk.injEq]
      constructor <;> ring

lemma map_section_angle_sum (l : List WheelSection) :
    (l.map section_angle).sum = calculate_total_percentage l / 100 * 360 := by
  induction l with
  | nil => simp [calculate_total_percentage]
  | cons s rest ih =>
    simp only [List.map_cons, List.sum_cons, ih, calc_total_cons, section_angle]
    ring

/-- C8: the renderer draws contiguous pie slices in list order from angle 0;
slice `i` starts at the sum of the previous sections' angular spans and spans
`(percentage / 100) * 360` degrees, with the constant denominator 100 — so
when the total percentage is below 100 the spans sum to less than 360°. -/
theorem renderer_slice_angles (l : List WheelSection) (i : ℕ) (hi : i < l.length) :
    (slice_angles 0 l).getD i (0, 0) =
      (((l.take i).map section_angle).sum,
       ((l.take i).map section_angle).sum + section_angle (l.getD i default)) ∧
    (calculate_total_percentage l < 100 → (l.map section_angle).sum < 360) := by
  constructor
  · simpa using slice_angles_getD l i 0 hi
  · intro ht
    rw [map_section_angle_sum]
    have h1 : calculate_total_percentage l / 100 < 1 :=
      (div_lt_one (by norm_num)).mpr ht
    calc calculate_total_percentage l / 100 * 360 < 1 * 360 := by
          exact mul_lt_mul_of_pos_right h1 (by norm_num)
      _ = 360 := by norm_num

/-- Witness for C8 on a concrete three-section wheel at slice index 1:
the slice starts at 108° (= 30% of 360°) and ends at 216°. -/
theorem renderer_slice_angles_witness :
    1 < ([⟨"A", 30, "c1"⟩, ⟨"B", 30, "c2"⟩, ⟨"C", 40, "c3"⟩] :
        List WheelSection).length ∧
    (slice_angles 0 [⟨"A", 30, "c1"⟩, ⟨"B", 30, "c2"⟩, ⟨"C", 40, "c3"⟩]).getD
        1 (0, 0) = (108, 216) := by
  refine ⟨by decide, ?_⟩
  have h := (renderer_slice_angles
    [⟨"A", 30, "c1"⟩, ⟨"B", 30, "c2"⟩, ⟨"C", 40, "c3"⟩] 1 (by decide)).1
  rw [h]
  norm_num [section_angle]

lemma selectWinner_shift : ∀ (l : List WheelSection) (r a : ℚ),
    selectWinner r a l = selectWinner (r - a) 0 l := by
  intro l
  induction l with
  | nil => intro r a; rfl
  | cons s rest ih =>
    intro r a
    simp only [selectWinner]
    by_cases h : r ≤ a + s.percentage
    · rw [if_pos h, if_pos (by linarith)]
    · rw [if_neg h, if_neg (by intro hh; apply h; linarith)]
      rw [ih r (a + s.percentage), ih (r - a) (0 + s.percentage)]
      congr 1
      ring

lemma firstCoveringIdx_nil (r : ℚ) : firstCoveringIdx [] r = none := rfl

lemma firstCoveringIdx_cons (s : WheelSection) (rest : List WheelSection) (r : ℚ) :
    firstCoveringIdx (s :: rest) r =
      if r ≤ s.percentage then some 0
      else (firstCoveringIdx rest (r - s.percentage)).map (· + 1) := by
  unfold firstCoveringIdx
  simp only [List.length_cons, List.range_succ_eq_map]
  by_cases h : r ≤ s.percentage
  · rw [if_pos h, List.find?_cons_of_pos]
    simp only [List.take_succ_cons, List.take_zero, calc_total_cons, calc_total_nil,
      decide_eq_true_eq]
    linarith
  · rw [if_neg h, List.find?_cons_of_neg, List.find?_map]
    · have hp : ((fun i =>
            decide (r ≤ calculate_total_percentage ((s :: rest).take (i + 1)))) ∘ Nat.succ)
          = fun i =>
            decide (r - s.percentage ≤ calculate_total_percentage (rest.take (i + 1))) := by
        funext i
        simp only [Function.comp_apply, List.take_succ_cons, calc_total_cons]
        exact decide_eq_decide.mpr ⟨fun hh => by linarith, fun hh => by linarith⟩
      rw [hp]
    · simp only [List.take_succ_cons, List.take_zero, calc_total_cons, calc_total_nil,
        decide_eq_true_eq]
      intro hh
      exact h (by linarith)

lemma selectWinner_eq_firstCovering :
    ∀ (l : List WheelSection) (r : ℚ) (i : ℕ),
      firstCoveringIdx l r = some i →
      selectWinner r 0 l = some ((l.getD i default).name) := by
  intro l
  induction l with
  | nil => intro r i h; simp [firstCoveringIdx_nil] at h
  | cons s rest ih =>
    intro r i h
    rw [firstCoveringIdx_cons] at h
    by_cases hc : r ≤ s.percentage
    · rw [if_pos hc] at h
      injection h with h
      subst h
      simp only [selectWinner, List.getD_cons_zero]
      rw [if_pos (by linarith)]
    · rw [if_neg hc] at h
      rcases Option.map_eq_some'.mp h with ⟨j, hj, rfl⟩
      have hrec := ih (r - s.percentage) j hj
      simp only [selectWinner, List.getD_cons_succ]
      rw [if_neg (by intro hh; exact hc (by linarith))]
      rw [selectWinner_shift rest r (0 + s.percentage)]
      have harg : r - (0 + s.percentage) = r - s.percentage := by ring
      rw [harg, hrec]

/-- C1 (amended): on a non-empty wheel with total at least 100 and a draw
`r ∈ [0, total]`, if the first section whose cumulative percentage sum is
`>= r` (index `i`) has a non-empty name, then `spin` returns exactly that
section's name.  (Without the non-empty-name proviso the falsy-winner
fallback can redirect the result to the first section.) -/
theorem spin_wheel_selects_first_covering (l : List WheelSection) (r : ℚ) (i : ℕ)
    (hne : l ≠ []) (ht : 100 ≤ calculate_total_percentage l)
    (hr0 : 0 ≤ r) (hrt : r ≤ calculate_total_percentage l)
    (hidx : firstCoveringIdx l r = some i)
    (hname : (l.getD i default).name ≠ "") :
    spin_wheel l r = .ok (l.getD i default).name := by
  have hsel := selectWinner_eq_firstCovering l r i hidx
  unfold spin_wheel
  rw [if_neg hne, if_neg (not_lt.mpr ht), hsel]
  dsimp only
  rw [if_neg hname]

/-- Counterexample to C1 as stated: on the wheel A=30, ""=30, C=40 with draw
r=31, the first section whose cumulative sum is `>= 31` is the one named ""
(index 1), but `spin` returns "A" — the falsy winner name triggers the
first-section fallback. -/
theorem spin_wheel_first_covering_counterexample :
    firstCoveringIdx [⟨"A", 30, "x"⟩, ⟨"", 30, "y"⟩, ⟨"C", 40, "z"⟩] 31 = some 1 ∧
    (([⟨"A", 30, "x"⟩, ⟨"", 30, "y"⟩, ⟨"C", 40, "z"⟩] :
        List WheelSection).getD 1 default).name = "" ∧
    spin_wheel [⟨"A", 30, "x"⟩, ⟨"", 30, "y"⟩, ⟨"C", 40, "z"⟩] 31 = .ok "A" ∧
    "A" ≠ "" := by
  refine ⟨?_, rfl, ?_, by decide⟩
  · rw [firstCoveringIdx_cons, if_neg (by norm_num), firstCoveringIdx_cons,
      if_pos (by norm_num)]
    rfl
  · have hsel : selectWinner 31 0 [⟨"A", 30, "x"⟩, ⟨"", 30, "y"⟩, ⟨"C", 40, "z"⟩]
        = some "" := by
      simp only [selectWinner]
      rw [if_neg (by norm_num), if_pos (by norm_num)]
    unfold spin_wheel
    rw [if_neg (List.cons_ne_nil _ _),
      if_neg (by norm_num [calculate_total_percentage]), hsel]
    rfl

/-- Witness for C1 on the spec's example wheel A=30, B=30, C=40:
r=30 selects A (boundary inclusive), r=30.0001 selects B, r=100 selects C. -/
theorem spin_wheel_selects_first_covering_witness :
    firstCoveringIdx [⟨"A", 30, "x"⟩, ⟨"B", 30, "y"⟩, ⟨"C", 40, "z"⟩] 30 = some 0 ∧
    firstCoveringIdx [⟨"A", 30, "x"⟩, ⟨"B", 30, "y"⟩, ⟨"C", 40, "z"⟩] 30.0001 = some 1 ∧
    firstCoveringIdx [⟨"A", 30, "x"⟩, ⟨"B", 30, "y"⟩, ⟨"C", 40, "z"⟩] 100 = some 2 ∧
    spin_wheel [⟨"A", 30, "x"⟩, ⟨"B", 30, "y"⟩, ⟨"C", 40, "z"⟩] 30 = .ok "A" ∧
    spin_wheel [⟨"A", 30, "x"⟩, ⟨"B", 30, "y"⟩, ⟨"C", 40, "z"⟩] 30.0001 = .ok "B" ∧
    spin_wheel [⟨"A", 30, "x"⟩, ⟨"B", 30, "y"⟩, ⟨"C", 40, "z"⟩] 100 = .ok "C" := by
  have h0 : firstCoveringIdx [⟨"A", 30, "x"⟩, ⟨"B", 30, "y"⟩, ⟨"C", 40, "z"⟩] 30
      = some 0 := by
    rw [firstCoveringIdx_cons, if_pos (by norm_num)]
  have h1 : firstCoveringIdx [⟨"A", 30, "x"⟩, ⟨"B", 30, "y"⟩, ⟨"C", 40, "z"⟩] 30.0001
      = some 1 := by
    rw [firstCoveringIdx_cons, if_neg (by norm_num), firstCoveringIdx_cons,
      if_pos (by norm_num)]
    rfl
  have h2 : firstCoveringIdx [⟨"A", 30, "x"⟩, ⟨"B", 30, "y"⟩, ⟨"C", 40, "z"⟩] 100
      = some 2 := by
    rw [firstCoveringIdx_cons, if_neg (by norm_num), firstCoveringIdx_cons,
      if_neg (by norm_num), firstCoveringIdx_cons, if_pos (by norm_num)]
    rfl
  refine ⟨h0, h1, h2, ?_, ?_, ?_⟩
  · exact spin_wheel_selects_first_covering _ 30 0 (List.cons_ne_nil _ _)
      (by norm_num [calculate_total_percentage]) (by norm_num)
      (by norm_num [calculate_total_percentage]) h0 (by decide)
  · exact spin_wheel_selects_first_covering _ 30.0001 1 (List.cons_ne_nil _ _)
      (by norm_num [calculate_total_percentage]) (by norm_num)
      (by norm_num [calculate_total_percentage]) h1 (by decide)
  · exact spin_wheel_selects_first_covering _ 100 2 (List.cons_ne_nil _ _)
      (by norm_num [calculate_total_percentage]) (by norm_num)
      (by norm_num [calculate_total_percentage]) h2 (by decide)

/-- C9: if the section selected by the cumulative walk has the empty string
as its name, `spin` does not return it: the falsy winner name triggers the
defensive fallback, and `spin` returns the first section's name instead.
Consequently, whenever the first section's name is non-empty, `spin` can
never report "" as the winner. -/
theorem spin_wheel_empty_name_fallback (l : List WheelSection) (r : ℚ)
    (ht : 100 ≤ calculate_total_percentage l) :
    (selectWinner r 0 l = some "" → spin_wheel l r = .ok (l.headD default).name) ∧
    ((l.headD default).name ≠ "" → spin_wheel l r ≠ .ok "") := by
  constructor
  · intro hsel
    have hne : l ≠ [] := by
      intro he
      rw [he] at hsel
      cases hsel
    unfold spin_wheel
    rw [if_neg hne, if_neg (not_lt.mpr ht), hsel]
    rfl
  · intro hhead hcontra
    unfold spin_wheel at hcontra
    by_cases hne : l = []
    · rw [if_pos hne] at hcontra
      cases hcontra
    · rw [if_neg hne] at hcontra
      by_cases hi : calculate_total_percentage l < 100
      · rw [if_pos hi] at hcontra
        cases hcontra
      · rw [if_neg hi] at hcontra
        rcases hsel : selectWinner r 0 l with _ | w <;> rw [hsel] at hcontra
        · injection hcontra with hcontra
          exact hhead hcontra
        · dsimp only at hcontra
          by_cases hw : w = ""
          · rw [if_pos hw] at hcontra
            injection hcontra with hcontra
            exact hhead hcontra
          · rw [if_neg hw] at hcontra
            injection hcontra with hcontra
            exact hw hcontra

/-- Witness for C9 on the wheel A=30, ""=70 with draw r=50: the walk selects
the ""-named section, and `spin` reports "A". -/
theorem spin_wheel_empty_name_fallback_witness :
    (100 : ℚ) ≤ calculate_total_percentage [⟨"A", 30, "x"⟩, ⟨"", 70, "y"⟩] ∧
    selectWinner 50 0 [⟨"A", 30, "x"⟩, ⟨"", 70, "y"⟩] = some "" ∧
    spin_wheel [⟨"A", 30, "x"⟩, ⟨"", 70, "y"⟩] 50 = .ok "A" := by
  have hsel : selectWinner 50 0 [⟨"A", 30, "x"⟩, ⟨"", 70, "y"⟩] = some "" := by
    simp only [selectWinner]
    rw [if_neg (by norm_num), if_pos (by norm_num)]
  have ht : (100 : ℚ) ≤ calculate_total_percentage [⟨"A", 30, "x"⟩, ⟨"", 70, "y"⟩] := by
    norm_num [calculate_total_percentage]
  refine ⟨ht, hsel, ?_⟩
  exact (spin_wheel_empty_name_fallback [⟨"A", 30, "x"⟩, ⟨"", 70, "y"⟩] 50 ht).1 hsel

lemma calc_total_eraseIdx : ∀ (l : List WheelSection) (i : ℕ), i < l.length →
    calculate_total_percentage (l.eraseIdx i) =
      calculate_total_percentage l - (l.getD i default).percentage := by
  intro l
  induction l with
  | nil => intro i h; simp at h
  | cons s rest ih =>
    intro i h
    cases i with
    | zero =>
      simp only [List.eraseIdx_cons_zero, List.getD_cons_zero, calc_total_cons]
      ring
    | succ j =>
      have hj : j < rest.length := by simpa using h
      simp only [List.eraseIdx_cons_succ, List.getD_cons_succ, calc_total_cons, ih j hj]
      ring

lemma calc_total_set : ∀ (l : List WheelSection) (i : ℕ) (x : WheelSection),
    i < l.length →
    calculate_total_percentage (l.set i x) =
      calculate_total_percentage l - (l.getD i default).percentage + x.percentage := by
  intro l
  induction l with
  | nil => intro i x h; simp at h
  | cons s rest ih =>
    intro i x h
    cases i with
    | zero =>
      simp only [List.set_cons_zero, List.getD_cons_zero, calc_total_cons]
      ring
    | succ j =>
      have hj : j < rest.length := by simpa using h
      simp only [List.set_cons_succ, List.getD_cons_succ, calc_total_cons, ih j x hj]
      ring

lemma getD_mem : ∀ (l : List WheelSection) (i : ℕ), i < l.length →
    l.getD i default ∈ l := by
  intro l
  induction l with
  | nil => intro i h; simp at h
  | cons s rest ih =>
    intro i h
    cases i with
    | zero => simp
    | succ j =>
      have hj : j < rest.length := by simpa using h
      simp only [List.getD_cons_succ]
      exact List.mem_cons_of_mem _ (ih j hj)

lemma add_section_ok {l l' : List WheelSection} {n : String} {p : ℚ} {c : String}
    {rand : ℕ} (h : add_section l n p c rand = .ok l') :
    l' = l ++ [mkWheelSection rand n p c] ∧ 0 < p ∧ p ≤ 100 ∧
      calculate_total_percentage l + p ≤ 100 := by
  unfold add_section at h
  split_ifs at h with h1 h2 h3
  cases h
  push_neg at h1
  exact ⟨rfl, h1.1, h1.2, not_lt.mp h3⟩

lemma remove_section_ok {l l' : List WheelSection} {n : String}
    (h : remove_section l n = .ok l') :
    ∃ i, firstMatchIdx n l = some i ∧ i < l.length ∧ l' = l.eraseIdx i := by
  unfold remove_section at h
  cases hf : firstMatchIdx n l with
  | none => rw [hf] at h; cases h
  | some i =>
    rw [hf] at h
    injection h with h
    exact ⟨i, rfl, firstMatchIdx_lt_length hf, h.symm⟩

lemma edit_section_ok {l l' : List WheelSection} {n : String} {np : ℚ} {nc : String}
    {rand : ℕ} (h : edit_section l n np nc rand = .ok l') :
    ∃ i, firstMatchIdx n l = some i ∧ i < l.length ∧ 0 < np ∧ np ≤ 100 ∧
      calculate_total_percentage l - (l.getD i default).percentage + np ≤ 100 ∧
      l' = l.set i
        { l.getD i default with percentage := np, color := parse_color rand nc } := by
  unfold edit_section at h
  cases hf : firstMatchIdx n l with
  | none => rw [hf] at h; cases h
  | some i =>
    rw [hf] at h
    dsimp only at h
    split_ifs at h with h1 h2
    cases h
    push_neg at h1
    exact ⟨i, rfl, firstMatchIdx_lt_length hf, h1.1, h1.2, not_lt.mp h2, rfl⟩

/-- The per-community data-model invariant: all percentages positive and the
total at most 100. -/
def WheelInv (l : List WheelSection) : Prop :=
  (∀ s ∈ l, 0 < s.percentage) ∧ calculate_total_percentage l ≤ 100

/-- The section lists reachable from the empty wheel by successful
`create_wheel` / `add_section` / `remove_section` / `edit_section`
operations. -/
inductive ReachableWheel : List WheelSection → Prop where
  | empty : ReachableWheel []
  | create (l : List WheelSection) : ReachableWheel l → ReachableWheel (create_wheel l)
  | add (l l' : List WheelSection) (n : String) (p : ℚ) (c : String) (rand : ℕ) :
      ReachableWheel l → add_section l n p c rand = .ok l' → ReachableWheel l'
  | remove (l l' : List WheelSection) (n : String) :
      ReachableWheel l → remove_section l n = .ok l' → ReachableWheel l'
  | edit (l l' : List WheelSection) (n : String) (p : ℚ) (c : String) (rand : ℕ) :
      ReachableWheel l → edit_section l n p c rand = .ok l' → ReachableWheel l'

lemma reachable_wheelInv {l : List WheelSection} (h : ReachableWheel l) : WheelInv l := by
  induction h with
  | empty => exact ⟨by simp, by rw [calc_total_nil]; norm_num⟩
  | create l _ _ =>
    exact ⟨by simp [create_wheel], by rw [create_wheel, calc_total_nil]; norm_num⟩
  | add l l' n p c rand _ hok ih =>
    obtain ⟨rfl, hp, hp2, hb⟩ := add_section_ok hok
    constructor
    · intro s hs
      rcases List.mem_append.mp hs with hs | hs
      · exact ih.1 s hs
      · rw [List.mem_singleton.mp hs]
        exact hp
    · rw [calc_total_append]
      have : calculate_total_percentage [mkWheelSection rand n p c] = p := by
        simp [calculate_total_percentage, mkWheelSection]
      rw [this]
      exact hb
  | remove l l' n _ hok ih =>
    obtain ⟨i, hf, hlt, rfl⟩ := remove_section_ok hok
    constructor
    · intro s hs
      exact ih.1 s (List.mem_of_mem_eraseIdx hs)
    · rw [calc_total_eraseIdx l i hlt]
      have hpos := ih.1 _ (getD_mem l i hlt)
      linarith [ih.2]
  | edit l l' n p c rand _ hok ih =>
    obtain ⟨i, hf, hlt, hp, hp2, hb, rfl⟩ := edit_section_ok hok
    constructor
    · intro s hs
      rcases List.mem_or_eq_of_mem_set hs with hs | rfl
      · exact ih.1 s hs
      · simpa using hp
    · rw [calc_total_set l i _ hlt]
      simpa using hb

/-- C2: starting from the empty wheel, after every sequence of successful
`create_wheel` / `add_section` / `remove_section` / `edit_section`
operations the sum of the section percentages is at most 100. -/
theorem reachable_total_le_100 {l : List WheelSection} (h : ReachableWheel l) :
    calculate_total_percentage l ≤ 100 :=
  (reachable_wheelInv h).2

/-- Witness for C2: the wheel reached by a single successful add of
A=60 from the empty wheel has total at most 100. -/
theorem reachable_total_le_100_witness :
    ReachableWheel [⟨"A", 60, "#FF0000"⟩] ∧
    calculate_total_percentage [⟨"A", 60, "#FF0000"⟩] ≤ 100 := by
  have hok : add_section [] "A" 60 "red" 0 = .ok [⟨"A", 60, "#FF0000"⟩] := by
    unfold add_section
    rw [if_neg (by norm_num), if_neg (by simp),
      if_neg (by norm_num [calculate_total_percentage])]
    simp only [mkWheelSection]
    rw [show parse_color 0 "red" = "#FF0000" from by decide]
    rfl
  have hr : ReachableWheel [⟨"A", 60, "#FF0000"⟩] :=
    ReachableWheel.add [] _ "A" 60 "red" 0 ReachableWheel.empty hok
  exact ⟨hr, reachable_total_le_100 hr⟩

lemma any_match_of_exists {l : List WheelSection} {n : String}
    (h : ∃ s ∈ l, pyLower s.name = pyLower n) :
    (l.any fun s => pyLower s.name == pyLower n) = true := by
  rcases h with ⟨s, hs, he⟩
  exact List.any_eq_true.mpr ⟨s, hs, by simpa using he⟩

/-- C4: adding a section whose name case-insensitively equals an existing
section's name (with an in-range percentage) fails with `DuplicateName`; and
on every `add_section` failure the guild's observable section list and the
stored state are unchanged (validation precedes any mutation). -/
theorem add_section_duplicate_and_failure_frame (rands : ℕ → ℕ) (rand : ℕ)
    (st : BotState) (g : ℕ) (n : String) (p : ℚ) (c : String)
    (hp1 : 0 < p) (hp2 : p ≤ 100)
    (hdup : ∃ s ∈ sectionsOf rands st g, pyLower s.name = pyLower n) :
    (add_section_cmd rands rand st g n p c).1 = .error .DuplicateName ∧
    ∀ (rand' : ℕ) (n' : String) (p' : ℚ) (c' : String) (e : WheelError),
      (add_section_cmd rands rand' st g n' p' c').1 = .error e →
      sectionsOf rands (add_section_cmd rands rand' st g n' p' c').2 g =
        sectionsOf rands st g ∧
      (add_section_cmd rands rand' st g n' p' c').2.db = st.db := by
  have hdup' : ∃ s ∈ (get_wheel_sections rands st g).1,
      pyLower s.name = pyLower n := hdup
  constructor
  · unfold add_section_cmd
    have hdupl : add_section (get_wheel_sections rands st g).1 n p c rand =
        .error .DuplicateName := by
      unfold add_section
      rw [if_neg (by push_neg; exact ⟨hp1, hp2⟩),
        if_pos (any_match_of_exists hdup')]
    rw [hdupl]
  · intro rand' n' p' c' e he
    unfold add_section_cmd at he ⊢
    rcases hadd : add_section (get_wheel_sections rands st g).1 n' p' c' rand'
      with e' | l'
    · dsimp only
      exact ⟨sectionsOf_after_get rands st g, get_wheel_sections_db rands st g⟩
    · rw [hadd] at he
      dsimp only at he
      cases he

/-- A concrete bot state: empty cache, one stored wheel for guild 1. -/
def stExample : BotState :=
  { cache := fun _ => none,
    db := fun g => if g = 1 then some [⟨"A", 50, "#FF0000"⟩] else none }

/-- Witness for C4: on guild 1 of `stExample` (one stored section "A"),
adding "a" at 30% fails with `DuplicateName`. -/
theorem add_section_duplicate_and_failure_frame_witness :
    (0 : ℚ) < 30 ∧ (30 : ℚ) ≤ 100 ∧
    (∃ s ∈ sectionsOf (fun _ => 0) stExample 1, pyLower s.name = pyLower "a") ∧
    (add_section_cmd (fun _ => 0) 7 stExample 1 "a" 30 "blue").1 =
      .error .DuplicateName := by
  have hdup : ∃ s ∈ sectionsOf (fun _ => 0) stExample 1,
      pyLower s.name = pyLower "a" := by decide
  exact ⟨by norm_num, by norm_num, hdup,
    (add_section_duplicate_and_failure_frame (fun _ => 0) 7 stExample 1 "a" 30 "blue"
      (by norm_num) (by norm_num) hdup).1⟩

lemma hexDigit_ne {c : Char} (h : isHexDigitChar c = true) {d : Char}
    (hd : isHexDigitChar d = false) : c ≠ d := by
  intro he
  rw [he, hd] at h
  cases h

lemma hexDigit_not_ws {c : Char} (h : isHexDigitChar c = true) :
    isPyWhitespace c = false := by
  unfold isPyWhitespace
  rw [decide_eq_false (hexDigit_ne h (by decide) : c ≠ ' '),
    decide_eq_false (hexDigit_ne h (by decide) : c ≠ '\t'),
    decide_eq_false (hexDigit_ne h (by decide) : c ≠ '\n'),
    decide_eq_false (hexDigit_ne h (by decide) : c ≠ '\r'),
    decide_eq_false (hexDigit_ne h (by decide) : c ≠ '\x0b'),
    decide_eq_false (hexDigit_ne h (by decide) : c ≠ '\x0c')]
  rfl

lemma dropWhile_eq_self_of_all {p : Char → Bool} {l : List Char}
    (h : ∀ c ∈ l, p c = false) : l.dropWhile p = l := by
  cases l with
  | nil => rfl
  | cons a as =>
    rw [List.dropWhile_cons, if_neg (by simp [h a (List.mem_cons_self a as)])]

lemma stripWs_eq_self {l : List Char}
    (h : ∀ c ∈ l, isPyWhitespace c = false) : stripWs l = l := by
  unfold stripWs
  rw [dropWhile_eq_self_of_all h,
    dropWhile_eq_self_of_all (fun c hc => h c (List.mem_reverse.mp hc)),
    List.reverse_reverse]

lemma hexRun_of_all : ∀ {l : List Char}, (∀ c ∈ l, isHexDigitChar c = true) →
    hexRun l = true := by
  intro l
  induction l with
  | nil => intro _; rfl
  | cons c rest ih =>
    intro h
    have hc := h c (List.mem_cons_self _ _)
    unfold hexRun
    rw [if_neg (hexDigit_ne hc (by decide))]
    rw [hc, ih (fun d hd => h d (List.mem_cons_of_mem _ hd))]
    rfl

lemma pyIntHexOk_of_all_hex {l : List Char} (hne : l ≠ [])
    (h : ∀ c ∈ l, isHexDigitChar c = true) : pyIntHexOk l = true := by
  unfold pyIntHexOk
  rw [stripWs_eq_self (fun c hc => hexDigit_not_ws (h c hc))]
  have hsign : ¬(l.head? = some '+' ∨ l.head? = some '-') := by
    cases l with
    | nil => rintro (hh | hh) <;> simp at hh
    | cons a as =>
      have ha := h a (List.mem_cons_self _ _)
      rintro (hh | hh) <;> simp only [List.head?_cons, Option.some.injEq] at hh
      · exact hexDigit_ne ha (by decide) hh
      · exact hexDigit_ne ha (by decide) hh
  have hbase : ¬(l.take 2 = ['0', 'x'] ∨ l.take 2 = ['0', 'X']) := by
    rintro (hh | hh)
    · have hx : 'x' ∈ l := by
        have hm : 'x' ∈ l.take 2 := by rw [hh]; simp
        exact List.mem_of_mem_take hm
      exact absurd (h _ hx) (by decide)
    · have hx : 'X' ∈ l := by
        have hm : 'X' ∈ l.take 2 := by rw [hh]; simp
        exact List.mem_of_mem_take hm
      exact absurd (h _ hx) (by decide)
  unfold afterStrip
  rw [if_neg hsign]
  unfold afterSign
  rw [if_neg hbase]
  cases l with
  | nil => exact absurd rfl hne
  | cons a as =>
    show (isHexDigitChar a && hexRun as) = true
    rw [h a (List.mem_cons_self _ _),
      hexRun_of_all (fun d hd => h d (List.mem_cons_of_mem _ hd))]
    rfl

lemma lookup_none_of_keys : ∀ (m : List (String × String)),
    (∀ kv ∈ m, kv.1.data.head? ≠ some '#') →
    ∀ {s : String}, s.data.head? = some '#' → m.lookup s = none := by
  intro m
  induction m with
  | nil => intro _ s _; rfl
  | cons kv rest ih =>
    intro hk s hs
    rcases kv with ⟨k, v⟩
    simp only [List.lookup]
    cases hkk : (s == k) with
    | true =>
      have hks := eq_of_beq hkk
      have hne := hk (k, v) (List.mem_cons_self _ _)
      rw [← hks] at hne
      exact absurd hs hne
    | false =>
      exact ih (fun kv hkv => hk kv (List.mem_cons_of_mem _ hkv)) hs

lemma colorMapLookup_none_of_hash {s : String} (h : s.data.head? = some '#') :
    colorMapLookup s = none :=
  lookup_none_of_keys color_map (by decide) h

lemma toLower_upperHex {c : Char} (h : c ∈ upperHexChars) :
    Char.toLower c ∈ lowerHexChars := by
  fin_cases h <;> decide

lemma lowerHex_isHexDigit {c : Char} (h : c ∈ lowerHexChars) :
    isHexDigitChar c = true := by
  fin_cases h <;> decide

lemma toUpper_toLower_upperHex {c : Char} (h : c ∈ upperHexChars) :
    Char.toUpper (Char.toLower c) = c := by
  fin_cases h <;> decide

/-- `_parse_color` is the identity on canonical stored colors: lowering then
validating through the hex branch re-uppercases to the original string, so
re-parsing on load cannot change a canonical color. -/
lemma parse_color_canonical (rand : ℕ) (s : String)
    (h : isCanonicalColor s = true) : parse_color rand s = s := by
  unfold isCanonicalColor at h
  simp only [Bool.and_eq_true, beq_iff_eq, List.all_eq_true, decide_eq_true_eq] at h
  obtain ⟨⟨hhead, hlen⟩, hall⟩ := h
  obtain ⟨cs, hdata⟩ : ∃ cs, s.data = '#' :: cs := by
    cases hdd : s.data with
    | nil => rw [hdd] at hhead; simp at hhead
    | cons c0 cs =>
      rw [hdd] at hhead
      simp only [List.head?_cons, Option.some.injEq] at hhead
      exact ⟨cs, by rw [hhead]⟩
  have hlen6 : cs.length = 6 := by
    rw [hdata] at hlen
    simpa using hlen
  have hall' : ∀ c ∈ cs, c ∈ upperHexChars := by
    intro c hc
    apply hall
    rw [hdata]
    simpa using hc
  have hmemlow : ∀ c ∈ cs.map Char.toLower, c ∈ lowerHexChars := by
    intro c hc
    rcases List.mem_map.mp hc with ⟨c', hc', rfl⟩
    exact toLower_upperHex (hall' c' hc')
  have hlow : pyLower s = ⟨'#' :: cs.map Char.toLower⟩ := by
    unfold pyLower
    rw [hdata, List.map_cons, show Char.toLower '#' = '#' from by decide]
  have hstrip : pyStrip (⟨'#' :: cs.map Char.toLower⟩ : String) =
      ⟨'#' :: cs.map Char.toLower⟩ := by
    unfold pyStrip
    rw [show (⟨'#' :: cs.map Char.toLower⟩ : String).data =
          '#' :: cs.map Char.toLower from rfl]
    rw [stripWs_eq_self ?_]
    intro c hc
    rcases List.mem_cons.mp hc with rfl | hc
    · decide
    · exact hexDigit_not_ws (lowerHex_isHexDigit (hmemlow c hc))
  unfold parse_color
  rw [hlow, hstrip, colorMapLookup_none_of_hash
    (show (⟨'#' :: cs.map Char.toLower⟩ : String).data.head? = some '#' from rfl)]
  dsimp only
  have hmapne : cs.map Char.toLower ≠ [] := by
    intro hmn
    have : cs = [] := by simpa using congrArg List.length hmn
    rw [this] at hlen6
    cases hlen6
  rw [if_pos ?_]
  · unfold pyUpper
    rw [show (⟨'#' :: cs.map Char.toLower⟩ : String).data =
          '#' :: cs.map Char.toLower from rfl]
    rw [List.map_cons, show Char.toUpper '#' = '#' from by decide, List.map_map]
    have hmap : cs.map (Char.toUpper ∘ Char.toLower) = cs := by
      have := List.map_congr_left
        (fun c hc => by
          show (Char.toUpper ∘ Char.toLower) c = id c
          simpa using toUpper_toLower_upperHex (hall' c hc))
      rw [this, List.map_id]
    rw [hmap, ← hdata]
  · refine ⟨rfl, ?_, ?_⟩
    · show ('#' :: cs.map Char.toLower).length = 7
      simp [hlen6]
    · show pyIntHexOk (cs.map Char.toLower) = true
      exact pyIntHexOk_of_all_hex hmapne
        (fun c hc => lowerHex_isHexDigit (hmemlow c hc))

lemma from_dict_list_map_to_dict :
    ∀ (l : List WheelSection) (rands : ℕ → ℕ) (k : ℕ),
      (∀ s ∈ l, isCanonicalColor s.color = true) →
      from_dict_list rands k (l.map WheelSection.to_dict) = l := by
  intro l
  induction l with
  | nil => intro rands k _; rfl
  | cons s rest ih =>
    intro rands k h
    simp only [List.map_cons, from_dict_list]
    rw [ih rands (k + 1) (fun t ht => h t (List.mem_cons_of_mem _ ht))]
    have hs : WheelSection.from_dict (rands k) (WheelSection.to_dict s) = s := by
      unfold WheelSection.from_dict WheelSection.to_dict mkWheelSection
      dsimp only
      rw [parse_color_canonical _ _ (h s (List.mem_cons_self _ _))]
    rw [hs]

/-- C7: for every guild id and section list with canonical stored colors
(`#` + six upper-case hex digits, the shape every `_parse_color` branch
emits), loading right after saving reproduces the same ordered list with
identical name, percentage and color fields — even though `load_wheel`
rebuilds each section through the constructor and so re-runs color parsing
on the stored color. -/
theorem save_load_roundtrip (rands : ℕ → ℕ) (db : ℕ → Option (List SectionDict))
    (g : ℕ) (l : List WheelSection)
    (h : ∀ s ∈ l, isCanonicalColor s.color = true) :
    load_wheel rands (save_wheel db g l) g = l := by
  unfold load_wheel save_wheel
  rw [if_pos rfl]
  exact from_dict_list_map_to_dict l rands 0 h

/-- Witness for C7 on a concrete two-section wheel with canonical colors,
stored under guild 5 on an empty store and loaded with a different random
seed. -/
theorem save_load_roundtrip_witness :
    (∀ s ∈ ([⟨"A", 30, "#FF0000"⟩, ⟨"B", 70, "#00FF00"⟩] : List WheelSection),
      isCanonicalColor s.color = true) ∧
    load_wheel (fun _ => 3)
      (save_wheel (fun _ => none) 5 [⟨"A", 30, "#FF0000"⟩, ⟨"B", 70, "#00FF00"⟩])
      5 = [⟨"A", 30, "#FF0000"⟩, ⟨"B", 70, "#00FF00"⟩] :=
  ⟨by decide, save_load_roundtrip (fun _ => 3) (fun _ => none) 5 _ (by decide)⟩

/-- C6 evaluated at the failing input "#+1a345": the token does not match the
spec's "`#` followed by exactly six hexadecimal digits" shape (it carries a
sign), yet `_parse_color` does not fall through to the random fallback:
Python's lenient `int(x, 16)` accepts "+1a345", so the token is returned
upper-cased as "#+1A345" — itself not of the required shape. -/
theorem parse_color_accepts_malformed_hex :
    specSixHex "#+1a345" = false ∧
    parse_color 0 "#+1a345" = "#+1A345" ∧
    specSixHex "#+1A345" = false := by decide
